import Mathlib

/-!
Shallow embedding of snapdrop's client network layer
(src/client/scripts/network.js): the FileChunker, the FileDigester, the
Peer send queue and inbound progress reporting, the RTCPeer lifecycle
handlers, the PeersManager registry, and the text round-trip codecs used
by `sendText` / `_onTextReceived`.
-/

/-- Chunk size constant: `this._chunkSize = 64000` (network.js:399). -/
def chunkSize : Nat := 64000

/-- Partition size constant: `this._maxPartitionSize = 1e6` (network.js:400). -/
def maxPartitionSize : Nat := 1000000

/-- Mutable state of a FileChunker for one file: the fields `_offset` and
`_partitionSize` (network.js:401-402). -/
structure ChunkerState where
  offset : Nat
  partitionSize : Nat
deriving DecidableEq

/-- Byte length of `this._file.slice(this._offset, this._offset + this._chunkSize)`
(network.js:416): a Blob slice is clamped to the file size, and is empty when the
start offset is at or past the end. -/
def sliceLen (size offset : Nat) : Nat := min (offset + chunkSize) size - offset

/-- State update performed by `FileChunker._onChunkRead` (network.js:421-422):
`this._offset += chunk.byteLength; this._partitionSize += chunk.byteLength`. -/
def onChunkRead (s : ChunkerState) (len : Nat) : ChunkerState :=
  { offset := s.offset + len, partitionSize := s.partitionSize + len }

/-- `FileChunker.isFileEnd` (network.js:440-442): the strict comparison
`this._offset > this._file.size`. -/
def isFileEnd (size : Nat) (s : ChunkerState) : Bool := decide (s.offset > size)

/-- `FileChunker._isPartitionEnd` (network.js:436-438):
`this._partitionSize >= this._maxPartitionSize`. -/
def isPartitionEnd (s : ChunkerState) : Bool := decide (s.partitionSize ≥ maxPartitionSize)

/-- The sequence of chunk byte lengths the chunker emits when driven to completion,
bounded by fuel.  Each `_onChunkRead` (network.js:420-429) emits one chunk via
`_onChunk`; if the partition or the file ended it calls `_onPartitionEnd` and
suspends, otherwise it reads the next chunk.  A suspended chunker is resumed by the
receiver's partition ack: `Peer._sendNextPartition` (network.js:136-139) calls
`nextPartition()` (which resets `_partitionSize`, network.js:410-413) unless
`isFileEnd()` is true, in which case the chunker stops for good. -/
def chunkerRun (size : Nat) : Nat → ChunkerState → List Nat
  | 0, _ => []
  | fuel + 1, s =>
    let len := sliceLen size s.offset
    let s1 := onChunkRead s len
    len ::
      (if isPartitionEnd s1 || isFileEnd size s1 then
        (if isFileEnd size s1 then []
         else chunkerRun size fuel { s1 with partitionSize := 0 })
      else chunkerRun size fuel s1)

/-- `FileChunker.progress` (network.js:444-446): `this._offset / this._file.size`,
with no clamping.  JavaScript division by zero does not produce a number in the
usual sense: for the reachable size-0 state the result is `0 / 0 = NaN` (and it
would be `Infinity` for a positive offset); the embedding returns `none` in that
case and the exact rational quotient otherwise. -/
def chunkerProgress (size offset : Nat) : Option ℚ :=
  if size = 0 then none else some ((offset : ℚ) / (size : ℚ))

/-- The send-queue fields of a Peer (network.js:92-93): `_filesQueue` and `_busy`,
instrumented with the list of files whose transfer has been started
(`_sendFile`, in order) and the number of transfer-complete messages processed. -/
structure PeerQueueState where
  filesQueue : List Nat
  busy : Bool
  started : List Nat
  completedCount : Nat
deriving DecidableEq

/-- Fresh Peer send-queue state (constructor, network.js:89-94). -/
def initPeerQueue : PeerQueueState := ⟨[], false, [], 0⟩

/-- `Peer._dequeueFile` (network.js:108-113): if the queue is empty return;
otherwise set `_busy`, shift the head off the queue and start sending it
(`_sendFile`, recorded in `started`). -/
def dequeueFile (s : PeerQueueState) : PeerQueueState :=
  match s.filesQueue with
  | [] => s
  | f :: rest => { s with filesQueue := rest, busy := true, started := s.started ++ [f] }

/-- `Peer.sendFiles` (network.js:100-106): push every file onto the queue; if
already busy return, otherwise dequeue. -/
def sendFiles (s : PeerQueueState) (files : List Nat) : PeerQueueState :=
  let s1 := { s with filesQueue := s.filesQueue ++ files }
  if s1.busy then s1 else dequeueFile s1

/-- `Peer._onTransferCompleted` (network.js:207-213): clear `_busy` and dequeue
the next file. -/
def onTransferCompleted (s : PeerQueueState) : PeerQueueState :=
  dequeueFile { s with busy := false, completedCount := s.completedCount + 1 }

/-- The two events that drive the send queue: a `sendFiles` call and an inbound
transfer-complete message. -/
inductive PeerEvent where
  | send (files : List Nat)
  | complete
deriving DecidableEq

/-- One event step of the Peer send queue. -/
def stepPeer (s : PeerQueueState) : PeerEvent → PeerQueueState
  | .send files => sendFiles s files
  | .complete => onTransferCompleted s

/-- Run a sequence of send-queue events. -/
def runPeer (s : PeerQueueState) (events : List PeerEvent) : PeerQueueState :=
  events.foldl stepPeer s

/-- Whether an event may fire in a state: a transfer-complete message only
arrives while a transfer is outstanding (the remote peer sends
`{type:'transfer-complete'}` only after fully receiving a file this peer was
busy sending, network.js:201-205); a `sendFiles` call can always happen. -/
def eventGuard (s : PeerQueueState) : PeerEvent → Bool
  | .complete => s.busy
  | .send _ => true

/-- The files an event submits. -/
def eventFiles : PeerEvent → List Nat
  | .send fs => fs
  | .complete => []

/-- A trace is well formed when every event fires in a state that admits it. -/
def validTrace : PeerQueueState → List PeerEvent → Bool
  | _, [] => true
  | s, e :: es => eventGuard s e && validTrace (stepPeer s e) es

/-- All files submitted through `sendFiles` over a trace, in submission order,
appended to an accumulator. -/
def submittedFrom (acc : List Nat) : List PeerEvent → List Nat
  | [] => acc
  | .send fs :: es => submittedFrom (acc ++ fs) es
  | .complete :: es => submittedFrom acc es

/-- A JavaScript number as produced by the embedded code: either an exact
rational, or a non-finite value.  The non-finite values that arise are `NaN`
(from `0 / 0`, from `NaN / x`, and from adding `undefined` to a number) and
`Infinity` (from `x / 0` with `x > 0`); every comparison the code performs on
them (`v < finite right-hand side`) is false for both, so a single
constructor is faithful here. -/
inductive JSNum where
  | nonfinite
  | num (q : ℚ)
deriving DecidableEq

/-- JavaScript subtraction: non-finite operands propagate (`NaN - x = NaN`,
`Infinity - finite = Infinity`). -/
def JSNum.sub : JSNum → JSNum → JSNum
  | num a, num b => num (a - b)
  | _, _ => nonfinite

/-- JavaScript `<` as used in `FileDigester.unchunk` and
`Peer._onChunkReceived`: comparisons whose left operand is `NaN` or
`Infinity` are false when the right operand is finite.  (The right operand is
always finite in the embedded code: the declared `_size` or the literal
`0.01`.) -/
def JSNum.lt : JSNum → JSNum → Bool
  | num a, num b => decide (a < b)
  | _, _ => false

/-- The value of `chunk.byteLength || chunk.size` (network.js:461) for the
binary frames the data channel delivers: `channel.binaryType = 'arraybuffer'`
(network.js:256), so a chunk is an ArrayBuffer whose `byteLength` is its
length and whose `size` property is undefined.  For a zero-length chunk the
`byteLength` 0 is falsy and the whole expression evaluates to `undefined`
(`none`). -/
def jsByteLen (len : Nat) : Option Nat := if len = 0 then none else some len

/-- JavaScript `+=` of the increment above: adding `undefined` to any number
gives `NaN`, and `NaN` plus anything stays `NaN`. -/
def JSNum.addOpt : JSNum → Option Nat → JSNum
  | num a, some n => num (a + n)
  | _, _ => nonfinite

/-- JavaScript division `x / n` as in `this._bytesReceived / this._size`:
exact when both are finite and `n ≠ 0`; `NaN / n = NaN`, and division by zero
yields `NaN` (for `x = 0`) or `Infinity`, both non-finite. -/
def jsDivN : JSNum → Nat → JSNum
  | .num a, n => if n = 0 then .nonfinite else .num (a / (n : ℚ))
  | .nonfinite, _ => .nonfinite

/-- The record handed to the FileDigester callback (network.js:468-473), minus
the object URL, which is an opaque browser handle. -/
structure ArtifactRec where
  name : String
  mime : String
  size : Nat
deriving DecidableEq

/-- State of a FileDigester (network.js:450-457): buffered chunk lengths,
`_bytesReceived` (a JavaScript number: it becomes `NaN` once a zero-length
chunk is added, since `chunk.byteLength || chunk.size` is then `undefined`),
the declared `_size`, `_name` and `_mime`, whether `_callback` is still
non-null, the list of artifacts passed to the callback, and the `progress`
field set by `unchunk`. -/
structure DigesterState where
  bufferLens : List Nat
  bytesReceived : JSNum
  sizeD : Nat
  nameD : String
  mimeD : String
  callbackActive : Bool
  completions : List ArtifactRec
  progressD : JSNum
deriving DecidableEq

/-- FileDigester constructor (network.js:450-457).  `_mime = meta.mime ||
'application/octet-stream'` defaults a missing (or empty, both falsy) mime.
`progress` is not assigned until the first `unchunk`, and is never read before
then; its initial value here is arbitrary. -/
def newDigester (name : String) (mime : Option String) (size : Nat) : DigesterState :=
  { bufferLens := [], bytesReceived := .num 0, sizeD := size, nameD := name,
    mimeD := mime.getD "application/octet-stream", callbackActive := true,
    completions := [], progressD := .num 0 }

/-- `FileDigester.unchunk` (network.js:459-475): push the chunk, execute
`this._bytesReceived += chunk.byteLength || chunk.size` (for a zero-length
ArrayBuffer the right-hand side is `undefined` and `_bytesReceived` becomes
`NaN`), set `progress = _bytesReceived / _size`, and return early while
`this._bytesReceived < this._size` — a comparison that is false whenever
`_bytesReceived` is `NaN`; otherwise build the artifact, invoke `_callback`
and null it out.  The returned Bool records whether the call raised a
TypeError: after a completed transfer `_callback` is null, and the code
reaches `this._callback({...})` again on the next chunk. -/
def unchunk (s : DigesterState) (len : Nat) : DigesterState × Bool :=
  let s1 := { s with bufferLens := s.bufferLens ++ [len],
                     bytesReceived := JSNum.addOpt s.bytesReceived (jsByteLen len),
                     progressD := jsDivN (JSNum.addOpt s.bytesReceived (jsByteLen len)) s.sizeD }
  if JSNum.lt s1.bytesReceived (.num (s.sizeD : ℚ)) then (s1, false)
  else if s1.callbackActive then
    ({ s1 with completions := s1.completions ++ [⟨s1.nameD, s1.mimeD, s1.sizeD⟩],
               callbackActive := false }, false)
  else (s1, true)

/-- Feed a sequence of chunk lengths to a digester. -/
def runDigester (s : DigesterState) (lens : List Nat) : DigesterState :=
  lens.foldl (fun s len => (unchunk s len).1) s

/-- Inbound-transfer state of a Peer: the digester, `_lastProgress`
(network.js:175), and the list of progress values sent to the sender. -/
structure ReceiveState where
  dig : DigesterState
  lastProgress : JSNum
  sentProgress : List JSNum
deriving DecidableEq

/-- `Peer._onFileHeader` (network.js:174-181): reset `_lastProgress` to 0 and
construct a fresh digester from the header. -/
def onFileHeader (name : String) (mime : Option String) (size : Nat) : ReceiveState :=
  { dig := newDigester name mime size, lastProgress := .num 0, sentProgress := [] }

/-- `Peer._onChunkReceived` (network.js:183-192): feed the chunk to the digester
(if that raises, the handler aborts and nothing below runs); read
`this._digester.progress`; `if (progress - this._lastProgress < 0.01) return;`
otherwise update `_lastProgress` and send `{type:'progress', progress}`. -/
def onChunkReceived (s : ReceiveState) (len : Nat) : ReceiveState :=
  let r := unchunk s.dig len
  if r.2 then { s with dig := r.1 }
  else
    let p := r.1.progressD
    if JSNum.lt (JSNum.sub p s.lastProgress) (.num (1/100)) then { s with dig := r.1 }
    else { dig := r.1, lastProgress := p, sentProgress := s.sentProgress ++ [p] }

/-- Run a sequence of received chunks through `_onChunkReceived`. -/
def runReceiver (s : ReceiveState) (lens : List Nat) : ReceiveState :=
  lens.foldl onChunkReceived s

/-- Consecutive sent progress values are finite and at least 1/100 apart. -/
def gapOK : List JSNum → Bool
  | .num a :: .num b :: rest => decide (a + 1/100 ≤ b) && gapOK (.num b :: rest)
  | _ :: _ :: _ => false
  | _ => true

/-- Invariant of the inbound progress reporting, carried through every
`_onChunkReceived` call on a positive-length chunk of a transfer with positive
declared size: the sent values are properly spaced, `_bytesReceived` is still
a finite number, and `_lastProgress` is the finite value last sent (or the
initial 0). -/
def receiverInv (s : ReceiveState) : Prop :=
  gapOK s.sentProgress = true ∧ 0 < s.dig.sizeD ∧
  (∃ b : ℚ, s.dig.bytesReceived = JSNum.num b) ∧
  (∃ l : ℚ, s.lastProgress = JSNum.num l ∧
    (s.sentProgress = [] ∨ s.sentProgress.getLast? = some (JSNum.num l)))

/-- The data channel object, reduced to the one field the embedded code
inspects: `readyState`. -/
structure ChannelRec where
  readyState : String
deriving DecidableEq

/-- State of an RTCPeer: `_peerId`, whether `_peer` (the RTCPeerConnection) is
non-null, `_isCaller`, `_channel`, and a log of every `_start(peerId, isCaller)`
invocation, i.e. of every handshake (re)initiation. -/
structure RTCPeerState where
  peerIdF : Nat
  hasPeerConn : Bool
  isCallerF : Bool
  channel : Option ChannelRec
  starts : List (Nat × Bool)
deriving DecidableEq

/-- `RTCPeer._start` (network.js:238-252): when `_peer` is absent, store the
role in `_isCaller` and the peer id and create the connection; then create the
channel (caller) or listen for one (callee).  The `starts` log records the
handshake initiation either way. -/
def startRTC (s : RTCPeerState) (peerId : Nat) (isCaller : Bool) : RTCPeerState :=
  let s1 := if s.hasPeerConn then s
            else { s with isCallerF := isCaller, peerIdF := peerId, hasPeerConn := true }
  { s1 with starts := s1.starts ++ [(peerId, isCaller)] }

/-- The property read `this.isCaller` (network.js:303).  The class assigns only
`this._isCaller` (network.js:240); no code anywhere assigns a property named
`isCaller`, so in JavaScript this read yields `undefined` for every session
state.  `undefined` is modelled as `none`. -/
def isCallerProperty (_s : RTCPeerState) : Option Bool := none

/-- `RTCPeer._onChannelClosed` (network.js:301-305): `if (!this.isCaller)
return;` then `this._start(this._peerId, true)`; `undefined` is falsy. -/
def onChannelClosed (s : RTCPeerState) : RTCPeerState :=
  match isCallerProperty s with
  | none => s
  | some b => if b then startRTC s s.peerIdF true else s

/-- `RTCPeer._onConnectionStateChange` (network.js:307-318): on
`'disconnected'` treat as channel closed; on `'failed'` null out `_peer` first. -/
def onConnectionStateChange (s : RTCPeerState) (connectionState : String) : RTCPeerState :=
  if connectionState = "disconnected" then onChannelClosed s
  else if connectionState = "failed" then onChannelClosed { s with hasPeerConn := false }
  else s

/-- `RTCPeer.refresh` (network.js:328-332): `if (this._peer && this._channel &&
this._channel.readyState !== 'open') return;` then
`this._start(this._peerId, this._isCaller)`. -/
def refresh (s : RTCPeerState) : RTCPeerState :=
  if s.hasPeerConn && (match s.channel with
                       | some ch => ch.readyState != "open"
                       | none => false) then s
  else startRTC s s.peerIdF s.isCallerF

/-- A registry entry of the PeersManager, reduced to the one field
`_onPeerLeft` inspects on it: whether its `_peer` connection object is set. -/
structure PeerEntry where
  hasPeerConn : Bool
deriving DecidableEq

/-- Lookup `this.peers[peerId]` in the registry, modelled as an association
list with unique keys. -/
def lookupPeer (peers : List (Nat × PeerEntry)) (peerId : Nat) : Option PeerEntry :=
  (peers.find? (fun kv => kv.1 == peerId)).map (·.2)

/-- `delete this.peers[peerId]`: remove the binding for `peerId` (a no-op when
the key is absent). -/
def deletePeer (peers : List (Nat × PeerEntry)) (peerId : Nat) : List (Nat × PeerEntry) :=
  peers.filter (fun kv => kv.1 != peerId)

/-- `PeersManager._onPeerLeft` (network.js:380-385): read the entry, delete the
key, and if both the entry and its `_peer` exist close the connection.  Returns
the new registry and whether a connection close was attempted. -/
def onPeerLeft (peers : List (Nat × PeerEntry)) (peerId : Nat) :
    List (Nat × PeerEntry) × Bool :=
  let peer := lookupPeer peers peerId
  let peers1 := deletePeer peers peerId
  match peer with
  | none => (peers1, false)
  | some p => if p.hasPeerConn then (peers1, true) else (peers1, false)

/-- A Unicode scalar value, i.e. a codepoint of a well-formed JavaScript
string (surrogate halves excluded; a lone surrogate makes
`encodeURIComponent` throw a URIError). -/
def ValidScalar (c : Nat) : Prop := c < 1114112 ∧ (c < 55296 ∨ 57344 ≤ c)

instance (c : Nat) : Decidable (ValidScalar c) := by unfold ValidScalar; infer_instance

/-- UTF-8 encoding of one Unicode scalar value, as performed internally by
`encodeURIComponent` (ECMA-262 Encode / UTF8Encode). -/
def utf8EncodeChar (c : Nat) : List Nat :=
  if c < 128 then [c]
  else if c < 2048 then [192 + c / 64, 128 + c % 64]
  else if c < 65536 then [224 + c / 4096, 128 + c / 64 % 64, 128 + c % 64]
  else [240 + c / 262144, 128 + c / 4096 % 64, 128 + c / 64 % 64, 128 + c % 64]

/-- UTF-8 encoding of a scalar-value sequence. -/
def utf8Encode (cs : List Nat) : List Nat := cs.flatMap utf8EncodeChar

/-- Uppercase hex digit character, as emitted by `encodeURIComponent` and
`escape` for a nibble value below 16. -/
def hexDigitU (n : Nat) : Nat := if n < 10 then 48 + n else 55 + n

/-- Whether a character code is a hex digit (either case), as accepted by
`unescape` and `decodeURIComponent`. -/
def isHexDigit (c : Nat) : Bool :=
  decide (48 ≤ c ∧ c ≤ 57) || decide (65 ≤ c ∧ c ≤ 70) || decide (97 ≤ c ∧ c ≤ 102)

/-- Numeric value of a hex digit character. -/
def hexVal (c : Nat) : Nat := if c ≤ 57 then c - 48 else if c ≤ 70 then c - 55 else c - 87

/-- The three characters `%XY` escaping one byte. -/
def pctByte (b : Nat) : List Nat := [37, hexDigitU (b / 16), hexDigitU (b % 16)]

/-- The characters `encodeURIComponent` leaves unescaped (ECMA-262
uriUnescaped): letters, digits and `- _ . ! ~ * ' ( )`. -/
def uriUnreserved (c : Nat) : Bool :=
  decide (65 ≤ c ∧ c ≤ 90) || decide (97 ≤ c ∧ c ≤ 122) || decide (48 ≤ c ∧ c ≤ 57) ||
  decide (c = 45) || decide (c = 95) || decide (c = 46) || decide (c = 33) ||
  decide (c = 126) || decide (c = 42) || decide (c = 39) || decide (c = 40) ||
  decide (c = 41)

/-- `encodeURIComponent(text)` over the scalar values of a well-formed string:
unreserved characters stay literal, every other character becomes the `%XY`
escapes of its UTF-8 bytes. -/
def encodeURIComponentL (cs : List Nat) : List Nat :=
  cs.flatMap (fun c => if uriUnreserved c then [c] else (utf8EncodeChar c).flatMap pctByte)

/-- `unescape(s)` (B.2.1.2): `%uXXXX` becomes the code unit `XXXX`, `%XY`
becomes the code unit `XY`, a `%` not followed by such digits and every other
character stay literal. -/
def unescape (l : List Nat) : List Nat :=
  match l with
  | [] => []
  | 37 :: rest =>
    match rest with
    | 117 :: x1 :: x2 :: x3 :: x4 :: rest4 =>
      if isHexDigit x1 && isHexDigit x2 && isHexDigit x3 && isHexDigit x4 then
        (hexVal x1 * 4096 + hexVal x2 * 256 + hexVal x3 * 16 + hexVal x4) :: unescape rest4
      else 37 :: unescape (117 :: x1 :: x2 :: x3 :: x4 :: rest4)
    | x1 :: x2 :: rest2 =>
      if isHexDigit x1 && isHexDigit x2 then
        (hexVal x1 * 16 + hexVal x2) :: unescape rest2
      else 37 :: unescape (x1 :: x2 :: rest2)
    | [x1] => [37, x1]
    | [] => [37]
  | c :: rest => c :: unescape rest
termination_by l.length

/-- The characters `escape` leaves unescaped (B.2.1.1): letters, digits and
`@ * _ + - . /`. -/
def escapeSafe (c : Nat) : Bool :=
  decide (65 ≤ c ∧ c ≤ 90) || decide (97 ≤ c ∧ c ≤ 122) || decide (48 ≤ c ∧ c ≤ 57) ||
  decide (c = 64) || decide (c = 42) || decide (c = 95) || decide (c = 43) ||
  decide (c = 45) || decide (c = 46) || decide (c = 47)

/-- `escape(s)`: safe characters stay literal, other code units below 256
become `%XY`, and larger ones become `%uXXXX`. -/
def escapeL (bs : List Nat) : List Nat :=
  bs.flatMap (fun c =>
    if escapeSafe c then [c]
    else if c < 256 then pctByte c
    else [37, 117, hexDigitU (c / 4096 % 16), hexDigitU (c / 256 % 16),
          hexDigitU (c / 16 % 16), hexDigitU (c % 16)])

/-- First phase of `decodeURIComponent` (ECMA-262 Decode): each `%XY` escape
is read as a byte (`Sum.inr`), every other character stays a literal code unit
(`Sum.inl`); a `%` not followed by two hex digits throws a URIError (`none`). -/
def uriTokens (l : List Nat) : Option (List (Sum Nat Nat)) :=
  match l with
  | [] => some []
  | 37 :: a :: b :: rest =>
    if isHexDigit a && isHexDigit b then
      (uriTokens rest).map (.inr (hexVal a * 16 + hexVal b) :: ·)
    else none
  | 37 :: _ => none
  | c :: rest => (uriTokens rest).map (.inl c :: ·)

/-- A UTF-8 continuation byte read during `decodeURIComponent`: it must come
from a `%XY` escape (a literal character never continues a sequence) and lie
in [0x80, 0xC0). -/
def contTok : Sum Nat Nat → Option Nat
  | .inr b => if 128 ≤ b ∧ b < 192 then some b else none
  | .inl _ => none

/-- Codepoint decoded from an escaped lead byte `b` and the tokens following
it, per ECMA-262 Decode with strict UTF-8: lead bytes that are continuations
or start overlong forms (0x80-0xC1), encode surrogates, or exceed U+10FFFF
are rejected, and every continuation must come from an escape. -/
def utf8CP (b : Nat) (rest : List (Sum Nat Nat)) : Option Nat :=
  if b < 128 then some b
  else if b < 194 then none
  else if b < 224 then
    ((rest.get? 0).bind contTok).bind (fun b1 =>
      some ((b - 192) * 64 + (b1 - 128)))
  else if b < 240 then
    ((rest.get? 0).bind contTok).bind (fun b1 =>
      ((rest.get? 1).bind contTok).bind (fun b2 =>
        if (b = 224 ∧ b1 < 160) ∨ (b = 237 ∧ 160 ≤ b1) then none
        else some ((b - 224) * 4096 + (b1 - 128) * 64 + (b2 - 128))))
  else if b < 245 then
    ((rest.get? 0).bind contTok).bind (fun b1 =>
      ((rest.get? 1).bind contTok).bind (fun b2 =>
        ((rest.get? 2).bind contTok).bind (fun b3 =>
          if (b = 240 ∧ b1 < 144) ∨ (b = 244 ∧ 144 ≤ b1) then none
          else some ((b - 240) * 262144 + (b1 - 128) * 4096 + (b2 - 128) * 64 +
            (b3 - 128)))))
  else none

/-- Number of continuation bytes a UTF-8 lead byte announces. -/
def utf8Len (b : Nat) : Nat :=
  if b < 128 then 0 else if b < 224 then 1 else if b < 240 then 2 else 3

/-- Second phase of `decodeURIComponent` (ECMA-262 Decode): literal code units
pass through; an escaped byte is decoded together with the continuation
escapes it announces (`utf8CP`), which are then consumed. -/
def decodeTokens (l : List (Sum Nat Nat)) : Option (List Nat) :=
  match l with
  | [] => some []
  | .inl c :: rest => (decodeTokens rest).map (c :: ·)
  | .inr b :: rest =>
    match utf8CP b rest with
    | some cp => (decodeTokens (rest.drop (utf8Len b))).map (cp :: ·)
    | none => none
termination_by l.length
decreasing_by
  · simp
  · simp only [List.length_cons, List.length_drop]
    omega

/-- `decodeURIComponent(s)` (ECMA-262 Decode): read the `%XY` escapes, then
assemble literal characters and escaped UTF-8 byte sequences into code
points. -/
def decodeURIComponentL (l : List Nat) : Option (List Nat) :=
  (uriTokens l).bind decodeTokens

/-- Character of the standard base64 alphabet at an index below 64. -/
def b64Char (n : Nat) : Nat :=
  if n < 26 then 65 + n else if n < 52 then 71 + n
  else if n < 62 then n - 4 else if n = 62 then 43 else 47

/-- Index of a base64 alphabet character, `none` for everything else. -/
def b64Val (c : Nat) : Option Nat :=
  if 65 ≤ c ∧ c ≤ 90 then some (c - 65)
  else if 97 ≤ c ∧ c ≤ 122 then some (c - 71)
  else if 48 ≤ c ∧ c ≤ 57 then some (c + 4)
  else if c = 43 then some 62
  else if c = 47 then some 63
  else none

/-- `btoa(s)`: base64-encode a string of code units, three bytes to four
characters with `=` (61) padding; throws (`none`) on a code unit at or above
256. -/
def btoaL : List Nat → Option (List Nat)
  | [] => some []
  | [a] =>
    if a < 256 then some [b64Char (a / 4), b64Char (a % 4 * 16), 61, 61] else none
  | [a, b] =>
    if a < 256 && b < 256 then
      some [b64Char (a / 4), b64Char (a % 4 * 16 + b / 16), b64Char (b % 16 * 4), 61]
    else none
  | a :: b :: c :: rest =>
    if a < 256 && b < 256 && c < 256 then
      (btoaL rest).map (fun t =>
        b64Char (a / 4) :: b64Char (a % 4 * 16 + b / 16) ::
        b64Char (b % 16 * 4 + c / 64) :: b64Char (c % 64) :: t)
    else none

/-- `atob(s)`: forgiving base64 decode of well-padded input, four characters
to three bytes, with `=` (61) padding at the very end shortening the last
group; leftover padding bits are discarded; anything else throws (`none`). -/
def atobL : List Nat → Option (List Nat)
  | [] => some []
  | a :: b :: c :: d :: rest =>
    match b64Val a, b64Val b with
    | some va, some vb =>
      if c = 61 then
        if d = 61 ∧ rest = [] then some [va * 4 + vb / 16] else none
      else
        match b64Val c with
        | some vc =>
          if d = 61 then
            if rest = [] then some [va * 4 + vb / 16, vb % 16 * 16 + vc / 4] else none
          else
            match b64Val d with
            | some vd =>
              (atobL rest).map (fun t =>
                (va * 4 + vb / 16) :: (vb % 16 * 16 + vc / 4) :: (vc % 4 * 64 + vd) :: t)
            | none => none
        | none => none
    | _, _ => none
  | _ => none

/-- The payload built by `Peer.sendText` (network.js:215-220):
`btoa(unescape(encodeURIComponent(text)))`, over the scalar values of the
text. -/
def sendTextPayload (m : List Nat) : Option (List Nat) :=
  btoaL (unescape (encodeURIComponentL m))

/-- The text recovered by `Peer._onTextReceived` (network.js:222-227):
`decodeURIComponent(escape(atob(message.text)))`. -/
def receiveTextPayload (payload : List Nat) : Option (List Nat) :=
  (atobL payload).bind (fun bs => decodeURIComponentL (escapeL bs))

/-! Theorems.  Helper lemmas come first, then one theorem per claim (with
witness or counterexample theorems where required). -/

theorem chunkerRun_stuck_five : ∀ fuel : Nat, (chunkerRun 5 fuel ⟨5, 5⟩).length = fuel := by
  intro fuel
  induction fuel with
  | zero => rfl
  | succ n ih =>
    simp only [chunkerRun, sliceLen, onChunkRead, isPartitionEnd, isFileEnd,
               chunkSize, maxPartitionSize]
    norm_num
    exact ih

/-- C1: the claim asks for exactly `ceil(size / chunk_size)` chunks and a
terminating process.  The code instead never terminates: `isFileEnd` compares
with strict `>` (network.js:441) while the offset, advanced by clamped Blob
slices, never exceeds the file size; once the offset reaches the size every
further read returns a zero-byte chunk and the loop continues.  For a 5-byte
file the chunker emits one chunk per unit of fuel, forever, although
`ceil(5 / 64000) = 1`. -/
theorem c1_chunker_never_terminates :
    ∀ fuel : Nat, (chunkerRun 5 fuel ⟨0, 0⟩).length = fuel ∧
      (5 + chunkSize - 1) / chunkSize = 1 := by
  intro fuel
  refine ⟨?_, by norm_num [chunkSize]⟩
  cases fuel with
  | zero => rfl
  | succ n =>
    simp only [chunkerRun, sliceLen, onChunkRead, isPartitionEnd, isFileEnd,
               chunkSize, maxPartitionSize]
    norm_num
    exact chunkerRun_stuck_five n

/-- C7: for a file whose size is exactly one chunk (64000 bytes), the claim
says `is_file_end` turns true on the chunk whose post-read offset equals the
file size.  The code returns false there (`64000 > 64000` fails), so after
the full-sized chunk the chunker reads a further zero-byte chunk. -/
theorem c7_isFileEnd_false_at_exact_multiple :
    sliceLen 64000 0 = chunkSize ∧
    isFileEnd 64000 ⟨64000, 64000⟩ = false ∧
    chunkerRun 64000 2 ⟨0, 0⟩ = [64000, 0] := by
  refine ⟨by norm_num [sliceLen, chunkSize], by decide, ?_⟩
  simp only [chunkerRun, sliceLen, onChunkRead, isPartitionEnd, isFileEnd,
             chunkSize, maxPartitionSize]
  norm_num

/-- C5: the claim says a caller re-initiates the handshake when its channel
closes.  The code's guard reads `this.isCaller` (network.js:303), a property
that is never assigned (the constructor stores `this._isCaller`), so the
guard sees `undefined`, returns early for caller and callee alike, and the
channel-closed handler is the identity on every session state: no
re-initiation ever happens, in particular not for a session holding the
caller role.  The same applies when reached from the connection-state
handler on `'disconnected'`. -/
theorem c5_channel_closed_never_reinitiates :
    ∀ s : RTCPeerState, onChannelClosed s = s ∧
      onConnectionStateChange s "disconnected" = s := by
  intro s
  exact ⟨rfl, rfl⟩

/-- C6: the claim says `refresh()` restarts the handshake when the channel is
absent or not open and is a no-op when it is open.  The code's condition is
inverted (network.js:330: it returns when `readyState !== 'open'`): with an
open channel it restarts the handshake (the `starts` log grows), and with a
closed channel it does nothing. -/
theorem c6_refresh_condition_inverted :
    (refresh ⟨5, true, true, some ⟨"open"⟩, []⟩).starts = [(5, true)] ∧
    refresh ⟨5, true, true, some ⟨"closed"⟩, []⟩ = ⟨5, true, true, some ⟨"closed"⟩, []⟩ := by
  exact ⟨rfl, rfl⟩

/-- C9 counterexample: for a file of size 0 the progress getter does not
produce a value in [0,1] at all: `0 / 0` is NaN (no rational value), so the
claimed clamping to [0,1] fails on the size-0 file the claim includes. -/
theorem c9_progress_counterexample :
    chunkerProgress 0 0 = none ∧ ¬∃ q : ℚ, chunkerProgress 0 0 = some q ∧ 0 ≤ q ∧ q ≤ 1 := by
  refine ⟨rfl, ?_⟩
  rintro ⟨q, hq, -⟩
  rw [chunkerProgress] at hq
  simp at hq

/-- C9 amended: the getter performs no clamping; it returns exactly
`offset / size`.  For a file of positive size this quotient already lies in
[0,1] for every reachable offset (the offset never exceeds the file size);
for a size-0 file the result is NaN, not a number in [0,1]. -/
theorem c9_progress_amended (size offset : Nat) (h0 : 0 < size) (hle : offset ≤ size) :
    chunkerProgress size offset = some ((offset : ℚ) / (size : ℚ)) ∧
    0 ≤ (offset : ℚ) / (size : ℚ) ∧ (offset : ℚ) / (size : ℚ) ≤ 1 := by
  have hs : (0 : ℚ) < (size : ℚ) := by exact_mod_cast h0
  refine ⟨?_, ?_, ?_⟩
  · rw [chunkerProgress, if_neg (by omega)]
  · positivity
  · rw [div_le_one hs]
    exact_mod_cast hle

theorem c9_progress_amended_witness :
    0 < 2 ∧ 1 ≤ 2 ∧
    (chunkerProgress 2 1 = some ((1 : ℚ) / (2 : ℚ)) ∧
     0 ≤ (1 : ℚ) / (2 : ℚ) ∧ (1 : ℚ) / (2 : ℚ) ≤ 1) := by
  refine ⟨by norm_num, by norm_num, ?_⟩
  have h := c9_progress_amended 2 1 (by norm_num) (by norm_num)
  exact_mod_cast h

/-- C10: a peer-left event for an unregistered id leaves the registry
unchanged and closes nothing; for a registered entry without an underlying
connection object, only the registry entry is removed and no close is
attempted.  (The handler is a total function: the JavaScript can not throw,
`delete` on a missing key and the `!peer || !peer._peer` guard make every
path safe.) -/
theorem c10_peer_left_safe (peers : List (Nat × PeerEntry)) (peerId : Nat) :
    (lookupPeer peers peerId = none → onPeerLeft peers peerId = (peers, false)) ∧
    (∀ p, lookupPeer peers peerId = some p → p.hasPeerConn = false →
      onPeerLeft peers peerId = (deletePeer peers peerId, false)) := by
  constructor
  · intro h
    have hfind : peers.find? (fun kv => kv.1 == peerId) = none := by
      rw [lookupPeer] at h
      exact Option.map_eq_none.mp h
    have hall := List.find?_eq_none.mp hfind
    have hfilter : deletePeer peers peerId = peers := by
      rw [deletePeer, List.filter_eq_self]
      intro kv hkv
      simpa using hall kv hkv
    simp only [onPeerLeft, lookupPeer, hfind, Option.map_none']
    rw [hfilter]
  · intro p hp hconn
    simp only [onPeerLeft]
    rw [hp]
    simp [hconn]

theorem c10_peer_left_witness :
    (lookupPeer [(1, ⟨true⟩), (2, ⟨false⟩)] 3 = none ∧
      onPeerLeft [(1, ⟨true⟩), (2, ⟨false⟩)] 3 = ([(1, ⟨true⟩), (2, ⟨false⟩)], false)) ∧
    (lookupPeer [(1, ⟨true⟩), (2, ⟨false⟩)] 2 = some ⟨false⟩ ∧
      onPeerLeft [(1, ⟨true⟩), (2, ⟨false⟩)] 2 =
        (deletePeer [(1, ⟨true⟩), (2, ⟨false⟩)] 2, false)) := by
  refine ⟨⟨by decide, (c10_peer_left_safe _ 3).1 (by decide)⟩,
          ⟨by decide, (c10_peer_left_safe _ 2).2 ⟨false⟩ (by decide) rfl⟩⟩

theorem dequeueFile_inv (q st : List Nat) (c : Nat) (h1 : st.length = c) :
    (dequeueFile ⟨q, false, st, c⟩).started.length =
      (dequeueFile ⟨q, false, st, c⟩).completedCount +
        (if (dequeueFile ⟨q, false, st, c⟩).busy then 1 else 0) ∧
    (dequeueFile ⟨q, false, st, c⟩).started ++ (dequeueFile ⟨q, false, st, c⟩).filesQueue =
      st ++ q := by
  cases q with
  | nil => simp [dequeueFile, h1]
  | cons f rest => simp [dequeueFile, h1]

theorem stepPeer_inv (s : PeerQueueState) (e : PeerEvent)
    (hv : eventGuard s e = true)
    (h1 : s.started.length = s.completedCount + (if s.busy then 1 else 0)) :
    (stepPeer s e).started.length =
      (stepPeer s e).completedCount + (if (stepPeer s e).busy then 1 else 0) ∧
    (stepPeer s e).started ++ (stepPeer s e).filesQueue =
      s.started ++ s.filesQueue ++ eventFiles e := by
  obtain ⟨q, b, st, c⟩ := s
  cases e with
  | send files =>
    simp only [stepPeer, sendFiles, eventFiles]
    cases b with
    | true =>
      simp only at h1
      simp [h1, List.append_assoc]
    | false =>
      simp only at h1
      simp only [if_neg (by simp :
        ¬((⟨q ++ files, false, st, c⟩ : PeerQueueState).busy = true))]
      obtain ⟨g1, g2⟩ :=
        dequeueFile_inv (q ++ files) st c (by simpa using h1)
      exact ⟨g1, by rw [g2]; simp [List.append_assoc]⟩
  | complete =>
    simp only [eventGuard] at hv
    subst hv
    simp only at h1
    simp only [stepPeer, onTransferCompleted, eventFiles]
    obtain ⟨g1, g2⟩ := dequeueFile_inv q st (c + 1) (by simpa using h1)
    exact ⟨g1, by rw [g2]; simp⟩

theorem runPeer_inv (events : List PeerEvent) :
    ∀ (s : PeerQueueState) (acc : List Nat),
      validTrace s events = true →
      s.started.length = s.completedCount + (if s.busy then 1 else 0) →
      s.started ++ s.filesQueue = acc →
      (runPeer s events).started.length =
        (runPeer s events).completedCount + (if (runPeer s events).busy then 1 else 0) ∧
      (runPeer s events).started ++ (runPeer s events).filesQueue =
        submittedFrom acc events := by
  induction events with
  | nil =>
    intro s acc _ h1 h2
    exact ⟨h1, h2⟩
  | cons e es ih =>
    intro s acc hv h1 h2
    rw [show validTrace s (e :: es) =
          (eventGuard s e && validTrace (stepPeer s e) es) from rfl,
        Bool.and_eq_true] at hv
    obtain ⟨hv1, hv2⟩ := hv
    obtain ⟨g1, g2⟩ := stepPeer_inv s e hv1 h1
    have hrun : runPeer s (e :: es) = runPeer (stepPeer s e) es := by
      simp [runPeer]
    rw [hrun]
    have hsub : submittedFrom acc (e :: es) =
        submittedFrom (acc ++ eventFiles e) es := by
      cases e with
      | send fs => rfl
      | complete => simp [submittedFrom, eventFiles]
    rw [hsub]
    exact ih (stepPeer s e) _ hv2 g1 (by rw [g2, h2])

/-- C2: over every well-formed event trace (transfer-complete only arrives
while a transfer is outstanding), the number of transfers started equals the
number completed plus one exactly when the session is busy — so at most one
outbound transfer is in flight at any time — and the started transfers
followed by the still-queued files are exactly the submitted files in
submission order: transfers start in FIFO order, the next being dequeued
only by the transfer-complete that finishes the current one. -/
theorem c2_send_queue_fifo (events : List PeerEvent)
    (h : validTrace initPeerQueue events = true) :
    (runPeer initPeerQueue events).started.length ≤
      (runPeer initPeerQueue events).completedCount + 1 ∧
    (runPeer initPeerQueue events).started.length =
      (runPeer initPeerQueue events).completedCount +
        (if (runPeer initPeerQueue events).busy then 1 else 0) ∧
    (runPeer initPeerQueue events).started ++ (runPeer initPeerQueue events).filesQueue =
      submittedFrom [] events := by
  obtain ⟨g1, g2⟩ := runPeer_inv events initPeerQueue [] h rfl rfl
  refine ⟨?_, g1, g2⟩
  rw [g1]
  by_cases hb : (runPeer initPeerQueue events).busy <;> simp [hb]

theorem c2_send_queue_fifo_witness :
    validTrace initPeerQueue
        [.send [1, 2], .complete, .send [3], .complete, .complete] = true ∧
    ((runPeer initPeerQueue [.send [1, 2], .complete, .send [3], .complete, .complete]).started.length ≤
      (runPeer initPeerQueue [.send [1, 2], .complete, .send [3], .complete, .complete]).completedCount + 1 ∧
    (runPeer initPeerQueue [.send [1, 2], .complete, .send [3], .complete, .complete]).started.length =
      (runPeer initPeerQueue [.send [1, 2], .complete, .send [3], .complete, .complete]).completedCount +
        (if (runPeer initPeerQueue [.send [1, 2], .complete, .send [3], .complete, .complete]).busy
         then 1 else 0) ∧
    (runPeer initPeerQueue [.send [1, 2], .complete, .send [3], .complete, .complete]).started ++
        (runPeer initPeerQueue [.send [1, 2], .complete, .send [3], .complete, .complete]).filesQueue =
      submittedFrom [] [.send [1, 2], .complete, .send [3], .complete, .complete]) :=
  ⟨by decide, c2_send_queue_fifo _ (by decide)⟩

theorem unchunk_no_raise (d : DigesterState) (len : Nat) (hact : d.callbackActive = true) :
    (unchunk d len).2 = false := by
  simp only [unchunk]
  split
  · rfl
  · rfl

theorem unchunk_fields (s : DigesterState) (len : Nat) :
    (unchunk s len).1.sizeD = s.sizeD ∧ (unchunk s len).1.nameD = s.nameD ∧
    (unchunk s len).1.mimeD = s.mimeD ∧
    (unchunk s len).1.bytesReceived = JSNum.addOpt s.bytesReceived (jsByteLen len) ∧
    (unchunk s len).1.progressD =
      jsDivN (JSNum.addOpt s.bytesReceived (jsByteLen len)) s.sizeD := by
  simp only [unchunk]
  split
  · exact ⟨rfl, rfl, rfl, rfl, rfl⟩
  · split
    · exact ⟨rfl, rfl, rfl, rfl, rfl⟩
    · exact ⟨rfl, rfl, rfl, rfl, rfl⟩

theorem addOpt_pos (b : ℚ) (len : Nat) (hlen : len ≠ 0) :
    JSNum.addOpt (JSNum.num b) (jsByteLen len) = JSNum.num (b + len) := by
  rw [jsByteLen, if_neg hlen]
  rfl

theorem jsDivN_pos (q : ℚ) (n : Nat) (hn : n ≠ 0) :
    jsDivN (JSNum.num q) n = JSNum.num (q / (n : ℚ)) := by
  simp only [jsDivN]
  rw [if_neg hn]

/-- C3: the claim requires the completion callback to fire exactly once, at
the first `unchunk` call where the received byte total reaches the declared
size.  The code computes `chunk.byteLength || chunk.size` (network.js:461);
for a zero-length ArrayBuffer the `byteLength` 0 is falsy and `size` is
undefined, so `_bytesReceived` becomes NaN, the guard
`this._bytesReceived < this._size` (network.js:464) is false, and the
digester completes immediately: for a declared size of 5 bytes, a single
zero-byte chunk fires the callback (with the declared artifact) although the
received byte total (0) never reached 5. -/
theorem c3_digester_spurious_completion :
    (runDigester (newDigester "file.txt" (some "text/plain") 5) [0]).completions =
      [⟨"file.txt", "text/plain", 5⟩] ∧
    (runDigester (newDigester "file.txt" (some "text/plain") 5) [0]).bytesReceived =
      JSNum.nonfinite ∧
    List.sum [0] < 5 := by
  refine ⟨by decide, by decide, by decide⟩

theorem gapOK_concat (xs : List JSNum) (l p : ℚ)
    (hgap : gapOK xs = true)
    (hlast : xs = [] ∨ xs.getLast? = some (JSNum.num l))
    (hle : l + 1/100 ≤ p) :
    gapOK (xs ++ [JSNum.num p]) = true := by
  induction xs with
  | nil => simp [gapOK]
  | cons x rest ih =>
    rcases hlast with h | h
    · exact absurd h (List.cons_ne_nil x rest)
    · cases rest with
      | nil =>
        simp only [List.getLast?_singleton, Option.some.injEq] at h
        subst h
        simp only [gapOK, Bool.and_eq_true, decide_eq_true_eq]
        constructor
        · linarith
        · trivial
      | cons y rest2 =>
        cases x with
        | nonfinite => simp [gapOK] at hgap
        | num a =>
          cases y with
          | nonfinite => simp [gapOK] at hgap
          | num b =>
            rw [show gapOK (JSNum.num a :: JSNum.num b :: rest2) =
                  (decide (a + 1/100 ≤ b) && gapOK (JSNum.num b :: rest2)) from rfl,
                Bool.and_eq_true] at hgap
            obtain ⟨hab, hrest⟩ := hgap
            have hlast2 : (JSNum.num b :: rest2).getLast? = some (JSNum.num l) := by
              rw [← List.getLast?_cons_cons]
              exact h
            have hres := ih hrest (Or.inr hlast2)
            simp only [List.cons_append]
            rw [show gapOK (JSNum.num a :: JSNum.num b :: (rest2 ++ [JSNum.num p])) =
                  (decide (a + 1/100 ≤ b) &&
                    gapOK (JSNum.num b :: (rest2 ++ [JSNum.num p]))) from rfl,
                Bool.and_eq_true]
            refine ⟨hab, ?_⟩
            simpa using hres

theorem onChunkReceived_inv (s : ReceiveState) (len : Nat) (hlen : len ≠ 0)
    (h : receiverInv s) : receiverInv (onChunkReceived s len) := by
  obtain ⟨hgap, hpos, ⟨b, hb⟩, l, hlast, hsent⟩ := h
  obtain ⟨hsz, -, -, hbytes, hprog⟩ := unchunk_fields s.dig len
  rw [hb, addOpt_pos b len hlen] at hbytes hprog
  rw [jsDivN_pos _ _ (by omega)] at hprog
  simp only [onChunkReceived]
  by_cases hr : (unchunk s.dig len).2 = true
  · rw [if_pos hr]
    exact ⟨hgap, by rw [hsz]; exact hpos, ⟨b + len, hbytes⟩, l, hlast, hsent⟩
  · rw [if_neg hr]
    rw [hprog, hlast]
    simp only [JSNum.sub, JSNum.lt]
    by_cases hc : (b + (len : ℚ)) / (s.dig.sizeD : ℚ) - l < 1/100
    · rw [if_pos (decide_eq_true hc)]
      exact ⟨hgap, by rw [hsz]; exact hpos, ⟨b + len, hbytes⟩, l, rfl, hsent⟩
    · rw [if_neg (by simpa using hc)]
      have hql : l + 1/100 ≤ (b + (len : ℚ)) / (s.dig.sizeD : ℚ) := by
        linarith [not_lt.mp hc]
      refine ⟨gapOK_concat _ l _ hgap hsent hql,
              by rw [hsz]; exact hpos, ⟨b + len, hbytes⟩, _, rfl, Or.inr ?_⟩
      simp

theorem runReceiver_inv (lens : List Nat) :
    ∀ s : ReceiveState, (∀ len ∈ lens, len ≠ 0) → receiverInv s →
      receiverInv (runReceiver s lens) := by
  induction lens with
  | nil => intro s _ h; exact h
  | cons len rest ih =>
    intro s hall h
    have hstep : runReceiver s (len :: rest) = runReceiver (onChunkReceived s len) rest := by
      simp [runReceiver]
    rw [hstep]
    exact ih _ (fun x hx => hall x (List.mem_cons_of_mem len hx))
      (onChunkReceived_inv s len (hall len (List.mem_cons_self len rest)) h)

theorem onFileHeader_inv (name : String) (mime : Option String) (size : Nat)
    (hpos : 0 < size) : receiverInv (onFileHeader name mime size) :=
  ⟨rfl, hpos, ⟨0, rfl⟩, 0, rfl, Or.inl rfl⟩

/-- C8 amended: for an inbound transfer with positive declared size receiving
chunks of positive length: (i) while the callback is live and `_bytesReceived`
is still a (finite) number, a progress message is sent on an unchunk exactly
when the new progress `bytes_received / size` exceeds the last reported
progress by at least 0.01, and `_lastProgress` is updated exactly then; and
(ii) any two consecutive progress messages are finite values p1 then p2 with
`p2 >= p1 + 0.01`.  Dropped from the original claim: size-0 transfers and
zero-length chunks, where `chunk.byteLength || chunk.size` is undefined,
`_bytesReceived` and `progress` become NaN, and a non-numeric progress
message is sent without the 0.01 increase (see the counterexample). -/
theorem c8_progress_amended :
    (∀ (d : DigesterState) (b last : ℚ) (sent : List JSNum) (len : Nat),
        0 < d.sizeD → d.callbackActive = true → d.bytesReceived = JSNum.num b →
        len ≠ 0 →
        (onChunkReceived ⟨d, JSNum.num last, sent⟩ len).sentProgress =
          (if 1/100 ≤ (b + (len : ℚ)) / (d.sizeD : ℚ) - last then
            sent ++ [JSNum.num ((b + (len : ℚ)) / (d.sizeD : ℚ))]
          else sent) ∧
        (onChunkReceived ⟨d, JSNum.num last, sent⟩ len).lastProgress =
          (if 1/100 ≤ (b + (len : ℚ)) / (d.sizeD : ℚ) - last then
            JSNum.num ((b + (len : ℚ)) / (d.sizeD : ℚ))
          else JSNum.num last)) ∧
    (∀ (name : String) (mime : Option String) (size : Nat) (lens : List Nat),
        0 < size → (∀ len ∈ lens, len ≠ 0) →
        gapOK ((runReceiver (onFileHeader name mime size) lens).sentProgress) = true) := by
  constructor
  · intro d b last sent len hpos hact hb hlen
    have hr := unchunk_no_raise d len hact
    obtain ⟨-, -, -, -, hprog⟩ := unchunk_fields d len
    rw [hb, addOpt_pos b len hlen, jsDivN_pos _ _ (by omega)] at hprog
    simp only [onChunkReceived]
    rw [if_neg (by simp [hr])]
    rw [hprog]
    simp only [JSNum.sub, JSNum.lt]
    by_cases hc : (b + (len : ℚ)) / (d.sizeD : ℚ) - last < 1/100
    · rw [if_pos (decide_eq_true hc)]
      rw [if_neg (not_le.mpr hc), if_neg (not_le.mpr hc)]
      exact ⟨rfl, rfl⟩
    · rw [if_neg (by simpa using hc)]
      rw [if_pos (not_lt.mp hc), if_pos (not_lt.mp hc)]
      exact ⟨rfl, rfl⟩
  · intro name mime size lens hpos hall
    exact (runReceiver_inv lens _ hall (onFileHeader_inv name mime size hpos)).1

/-- C8 counterexample.  (a) On a transfer with declared size 0 (the sender
sends such headers for empty files, and the buggy chunker then delivers a
zero-byte chunk), the first chunk makes `_bytesReceived` and `progress` NaN;
`NaN - 0 < 0.01` is false in JavaScript, so the receiver sends a progress
message although the new progress does not exceed the last reported progress
by 0.01 (it is not even a number), refuting the claimed "exactly when".
(b) On a transfer with declared size 200, chunks of 100 and 0 bytes produce
the messages 0.5 and NaN: the second message is sent without any 0.01
increase over the first, so the claim that consecutive messages p1 then p2
satisfy `p2 >= p1 + 0.01` fails as well (`gapOK` rejects the sent list). -/
theorem c8_progress_counterexample :
    (onChunkReceived (onFileHeader "file.bin" none 0) 0).sentProgress =
      [JSNum.nonfinite] ∧
    (runReceiver (onFileHeader "pic.png" none 200) [100, 0]).sentProgress =
      [JSNum.num (1/2), JSNum.nonfinite] ∧
    gapOK ((runReceiver (onFileHeader "pic.png" none 200) [100, 0]).sentProgress) =
      false := by
  have h : (runReceiver (onFileHeader "pic.png" none 200) [100, 0]).sentProgress =
      [JSNum.num (1/2), JSNum.nonfinite] := by
    norm_num [runReceiver, List.foldl, onChunkReceived, unchunk, onFileHeader,
              newDigester, jsByteLen, JSNum.addOpt, jsDivN, JSNum.lt, JSNum.sub]
  exact ⟨by decide, h, by rw [h]; rfl⟩

theorem c8_progress_amended_witness :
    0 < (newDigester "f.bin" none 200).sizeD ∧
    (newDigester "f.bin" none 200).callbackActive = true ∧
    (newDigester "f.bin" none 200).bytesReceived = JSNum.num 0 ∧
    (4 : Nat) ≠ 0 ∧
    (onChunkReceived ⟨newDigester "f.bin" none 200, JSNum.num 0, []⟩ 4).sentProgress =
      [JSNum.num (1/50)] ∧
    (∀ len ∈ [4, 4], len ≠ 0) ∧
    gapOK ((runReceiver (onFileHeader "f.bin" none 200) [4, 4]).sentProgress) = true := by
  refine ⟨by norm_num [newDigester], rfl, rfl, by norm_num, ?_, by decide,
          c8_progress_amended.2 "f.bin" none 200 [4, 4] (by norm_num) (by decide)⟩
  have h := (c8_progress_amended.1 (newDigester "f.bin" none 200) 0 0 [] 4
              (by norm_num [newDigester]) rfl rfl (by norm_num)).1
  rw [h]
  norm_num [newDigester]

theorem unescape_lit (c : Nat) (rest : List Nat) (h : c ≠ 37) :
    unescape (c :: rest) = c :: unescape rest := by
  rw [unescape.eq_def]
  split
  · rename_i heq; cases heq
  · rename_i heq; rw [List.cons.injEq] at heq; exact absurd heq.1 h
  · rename_i heq; rw [List.cons.injEq] at heq
    obtain ⟨h1, h2⟩ := heq
    subst h1; subst h2; rfl

theorem unescape_pct (h1 h2 : Nat) (rest : List Nat) (hne : h1 ≠ 117)
    (hh1 : isHexDigit h1 = true) (hh2 : isHexDigit h2 = true) :
    unescape (37 :: h1 :: h2 :: rest) = (hexVal h1 * 16 + hexVal h2) :: unescape rest := by
  rw [unescape.eq_def]
  split
  · rename_i heq; cases heq
  · rename_i rest1 heq
    rw [List.cons.injEq] at heq
    obtain ⟨-, heq⟩ := heq
    subst heq
    split
    · rename_i heq; rw [List.cons.injEq] at heq; exact absurd heq.1 hne
    · rename_i x1 x2 rest2 heq
      rw [List.cons.injEq, List.cons.injEq] at heq
      obtain ⟨e1, e2, e3⟩ := heq
      subst e1; subst e2; subst e3
      rw [if_pos (by simp [hh1, hh2])]
    · rename_i heq; cases heq
    · rename_i heq; cases heq
  · rename_i cc rr hg heq
    rw [List.cons.injEq] at heq
    exact absurd heq.1.symm hg

theorem hexDigitU_facts : ∀ x : Nat, x < 16 →
    isHexDigit (hexDigitU x) = true ∧ hexVal (hexDigitU x) = x ∧
    hexDigitU x ≠ 117 ∧ hexDigitU x ≠ 37 := by decide

theorem unescape_pctBytes (bs : List Nat) :
    ∀ rest : List Nat, (∀ b ∈ bs, b < 256) →
      unescape (bs.flatMap pctByte ++ rest) = bs ++ unescape rest := by
  induction bs with
  | nil => intro rest _; simp
  | cons b bs2 ih =>
    intro rest hlt
    have hb : b < 256 := hlt b (by simp)
    have hx1 := hexDigitU_facts (b / 16) (by omega)
    have hx2 := hexDigitU_facts (b % 16) (by omega)
    simp only [List.flatMap_cons, pctByte, List.append_assoc, List.cons_append,
               List.nil_append]
    rw [unescape_pct _ _ _ hx1.2.2.1 hx1.1 hx2.1]
    rw [hx1.2.1, hx2.2.1]
    rw [ih rest (fun x hx => hlt x (by simp [hx]))]
    have hrec : b / 16 * 16 + b % 16 = b := by omega
    rw [hrec]

theorem utf8EncodeChar_lt_256 (c : Nat) (h : c < 1114112) :
    ∀ b ∈ utf8EncodeChar c, b < 256 := by
  intro b hb
  rw [utf8EncodeChar] at hb
  split at hb
  · simp only [List.mem_singleton] at hb
    omega
  · split at hb
    · simp only [List.mem_cons, List.not_mem_nil, or_false] at hb
      rcases hb with rfl | rfl <;> omega
    · split at hb
      · simp only [List.mem_cons, List.not_mem_nil, or_false] at hb
        rcases hb with rfl | rfl | rfl <;> omega
      · simp only [List.mem_cons, List.not_mem_nil, or_false] at hb
        rcases hb with rfl | rfl | rfl | rfl <;> omega

theorem utf8Encode_lt_256 (m : List Nat) (h : ∀ c ∈ m, c < 1114112) :
    ∀ b ∈ utf8Encode m, b < 256 := by
  intro b hb
  rw [utf8Encode, List.mem_flatMap] at hb
  obtain ⟨c, hc, hbc⟩ := hb
  exact utf8EncodeChar_lt_256 c (h c hc) b hbc

theorem uriUnreserved_facts (c : Nat) (h : uriUnreserved c = true) : c < 128 ∧ c ≠ 37 := by
  simp only [uriUnreserved, Bool.or_eq_true, decide_eq_true_eq] at h
  omega

theorem unescape_encodeURIComponent (m : List Nat) (h : ∀ c ∈ m, c < 1114112) :
    unescape (encodeURIComponentL m) = utf8Encode m := by
  induction m with
  | nil => simp [encodeURIComponentL, utf8Encode, unescape]
  | cons c m2 ih =>
    have hc : c < 1114112 := h c (by simp)
    have ih2 := ih (fun x hx => h x (by simp [hx]))
    have hsplit : encodeURIComponentL (c :: m2) =
        (if uriUnreserved c = true then [c]
         else (utf8EncodeChar c).flatMap pctByte) ++ encodeURIComponentL m2 := by
      simp [encodeURIComponentL]
    have hsplit2 : utf8Encode (c :: m2) = utf8EncodeChar c ++ utf8Encode m2 := by
      simp [utf8Encode]
    rw [hsplit, hsplit2]
    by_cases hu : uriUnreserved c = true
    · obtain ⟨hlt, hne⟩ := uriUnreserved_facts c hu
      rw [if_pos hu]
      simp only [List.cons_append, List.nil_append]
      rw [unescape_lit c _ hne, ih2]
      rw [show utf8EncodeChar c = [c] from by rw [utf8EncodeChar, if_pos hlt]]
      rfl
    · rw [if_neg hu]
      rw [unescape_pctBytes _ _ (utf8EncodeChar_lt_256 c hc), ih2]

theorem b64_facts : ∀ v : Nat, v < 64 → b64Val (b64Char v) = some v ∧ b64Char v ≠ 61 := by
  decide

theorem atob_btoa_bounded (n : Nat) : ∀ bs : List Nat, bs.length ≤ n →
    (∀ b ∈ bs, b < 256) → ∃ s, btoaL bs = some s ∧ atobL s = some bs := by
  induction n with
  | zero =>
    intro bs hlen _
    have hnil : bs = [] := List.length_eq_zero.mp (Nat.le_zero.mp hlen)
    subst hnil
    exact ⟨[], rfl, rfl⟩
  | succ n ih =>
    intro bs hlen hlt
    cases bs with
    | nil => exact ⟨[], rfl, rfl⟩
    | cons a t =>
      cases t with
      | nil =>
        have ha : a < 256 := hlt a (by simp)
        have h1 := b64_facts (a / 4) (by omega)
        have h2 := b64_facts (a % 4 * 16) (by omega)
        refine ⟨[b64Char (a / 4), b64Char (a % 4 * 16), 61, 61], ?_, ?_⟩
        · rw [show btoaL [a] =
              (if a < 256 then some [b64Char (a / 4), b64Char (a % 4 * 16), 61, 61]
               else none) from rfl, if_pos ha]
        · have hbyte : a / 4 * 4 + a % 4 * 16 / 16 = a := by omega
          simp only [atobL]
          rw [h1.1, h2.1]
          simp [hbyte]
          omega
      | cons b t2 =>
        cases t2 with
        | nil =>
          have ha : a < 256 := hlt a (by simp)
          have hb : b < 256 := hlt b (by simp)
          have h1 := b64_facts (a / 4) (by omega)
          have h2 := b64_facts (a % 4 * 16 + b / 16) (by omega)
          have h3 := b64_facts (b % 16 * 4) (by omega)
          refine ⟨[b64Char (a / 4), b64Char (a % 4 * 16 + b / 16), b64Char (b % 16 * 4), 61],
                  ?_, ?_⟩
          · rw [show btoaL [a, b] =
                (if a < 256 && b < 256 then
                  some [b64Char (a / 4), b64Char (a % 4 * 16 + b / 16),
                        b64Char (b % 16 * 4), 61]
                 else none) from rfl,
                if_pos (by simp [ha, hb])]
          · have hbyte1 : a / 4 * 4 + (a % 4 * 16 + b / 16) / 16 = a := by omega
            have hbyte2 : (a % 4 * 16 + b / 16) % 16 * 16 + b % 16 * 4 / 4 = b := by omega
            simp only [atobL]
            rw [h1.1, h2.1]
            simp [h3.1, h3.2, hbyte1, hbyte2]
            omega
        | cons c rest2 =>
          have ha : a < 256 := hlt a (by simp)
          have hb : b < 256 := hlt b (by simp)
          have hc : c < 256 := hlt c (by simp)
          have h1 := b64_facts (a / 4) (by omega)
          have h2 := b64_facts (a % 4 * 16 + b / 16) (by omega)
          have h3 := b64_facts (b % 16 * 4 + c / 64) (by omega)
          have h4 := b64_facts (c % 64) (by omega)
          obtain ⟨s2, hbt, hat⟩ := ih rest2 (by simp at hlen; omega)
            (fun x hx => hlt x (by simp [hx]))
          refine ⟨b64Char (a / 4) :: b64Char (a % 4 * 16 + b / 16) ::
                  b64Char (b % 16 * 4 + c / 64) :: b64Char (c % 64) :: s2, ?_, ?_⟩
          · rw [show btoaL (a :: b :: c :: rest2) =
                (if a < 256 && b < 256 && c < 256 then
                  (btoaL rest2).map (fun t =>
                    b64Char (a / 4) :: b64Char (a % 4 * 16 + b / 16) ::
                    b64Char (b % 16 * 4 + c / 64) :: b64Char (c % 64) :: t)
                 else none) from rfl,
                if_pos (by simp [ha, hb, hc]), hbt]
            rfl
          · have hbyte1 : a / 4 * 4 + (a % 4 * 16 + b / 16) / 16 = a := by omega
            have hbyte2 : (a % 4 * 16 + b / 16) % 16 * 16 + (b % 16 * 4 + c / 64) / 4 = b := by
              omega
            have hbyte3 : (b % 16 * 4 + c / 64) % 4 * 64 + c % 64 = c := by omega
            simp only [atobL]
            rw [h1.1, h2.1]
            simp [h3.1, h3.2, h4.1, h4.2, hat, hbyte1, hbyte2, hbyte3]

theorem atob_btoa (bs : List Nat) (h : ∀ b ∈ bs, b < 256) :
    ∃ s, btoaL bs = some s ∧ atobL s = some bs :=
  atob_btoa_bounded bs.length bs le_rfl h

theorem uriTokens_lit (c : Nat) (rest : List Nat) (h : c ≠ 37) :
    uriTokens (c :: rest) = (uriTokens rest).map (.inl c :: ·) := by
  rw [uriTokens.eq_def]
  split
  · rename_i heq; cases heq
  · rename_i heq; rw [List.cons.injEq] at heq; exact absurd heq.1 h
  · rename_i heq; rw [List.cons.injEq] at heq; exact absurd heq.1 h
  · rename_i cc rr hg1 hg2 heq
    rw [List.cons.injEq] at heq
    obtain ⟨e1, e2⟩ := heq
    subst e1; subst e2; rfl

theorem uriTokens_pct (h1 h2 : Nat) (rest : List Nat)
    (hh1 : isHexDigit h1 = true) (hh2 : isHexDigit h2 = true) :
    uriTokens (37 :: h1 :: h2 :: rest) =
      (uriTokens rest).map (.inr (hexVal h1 * 16 + hexVal h2) :: ·) := by
  simp only [uriTokens]
  rw [if_pos (by simp [hh1, hh2])]

theorem escapeSafe_facts (c : Nat) (h : escapeSafe c = true) : c < 128 ∧ c ≠ 37 := by
  simp only [escapeSafe, Bool.or_eq_true, decide_eq_true_eq] at h
  omega

theorem escTok_hi (x : Nat) (h : 128 ≤ x) :
    (if escapeSafe x = true then (Sum.inl x : Sum Nat Nat) else Sum.inr x) = Sum.inr x := by
  rw [if_neg]
  intro hs
  exact absurd (escapeSafe_facts x hs).1 (by omega)

theorem uriTokens_escape (bs : List Nat) (h : ∀ b ∈ bs, b < 256) :
    uriTokens (escapeL bs) =
      some (bs.map (fun b => if escapeSafe b = true then Sum.inl b else Sum.inr b)) := by
  induction bs with
  | nil => rfl
  | cons b bs2 ih =>
    have hb : b < 256 := h b (by simp)
    have ih2 := ih (fun x hx => h x (by simp [hx]))
    by_cases hs : escapeSafe b = true
    · have hsplit : escapeL (b :: bs2) = b :: escapeL bs2 := by
        simp [escapeL, hs]
      rw [hsplit, uriTokens_lit b _ (escapeSafe_facts b hs).2, ih2]
      simp [hs]
    · have hsplit : escapeL (b :: bs2) = pctByte b ++ escapeL bs2 := by
        simp [escapeL, hs, hb]
      have hx1 := hexDigitU_facts (b / 16) (by omega)
      have hx2 := hexDigitU_facts (b % 16) (by omega)
      rw [hsplit]
      simp only [pctByte, List.cons_append, List.nil_append]
      rw [uriTokens_pct _ _ _ hx1.1 hx2.1, ih2]
      rw [hx1.2.1, hx2.2.1]
      have hrec : b / 16 * 16 + b % 16 = b := by omega
      rw [hrec]
      simp [hs]

theorem decodeTokens_nil : decodeTokens [] = some [] := by rw [decodeTokens]

theorem decodeTokens_inl (c : Nat) (rest : List (Sum Nat Nat)) :
    decodeTokens (.inl c :: rest) = (decodeTokens rest).map (c :: ·) := by
  rw [decodeTokens]

theorem decodeTokens_inr_some (b : Nat) (rest : List (Sum Nat Nat)) (cp : Nat)
    (h : utf8CP b rest = some cp) :
    decodeTokens (.inr b :: rest) = (decodeTokens (rest.drop (utf8Len b))).map (cp :: ·) := by
  rw [decodeTokens, h]

theorem contTok_ok (x : Nat) (h1 : 128 ≤ x) (h2 : x < 192) :
    contTok (.inr x) = some x := by
  simp only [contTok]
  rw [if_pos ⟨h1, h2⟩]

theorem utf8CP_two (c : Nat) (tail : List (Sum Nat Nat)) (h1 : ¬c < 128) (h2 : c < 2048) :
    utf8CP (192 + c / 64) (Sum.inr (128 + c % 64) :: tail) = some c := by
  rw [utf8CP, if_neg (by omega), if_neg (by omega), if_pos (by omega)]
  simp only [List.get?_cons_zero, Option.some_bind]
  rw [contTok_ok _ (by omega) (by omega)]
  simp only [Option.some_bind, Option.some.injEq]
  omega

theorem utf8CP_three (c : Nat) (tail : List (Sum Nat Nat)) (h2 : ¬c < 2048) (h3 : c < 65536)
    (hsur : c < 55296 ∨ 57344 ≤ c) :
    utf8CP (224 + c / 4096) (Sum.inr (128 + c / 64 % 64) :: Sum.inr (128 + c % 64) :: tail) =
      some c := by
  rw [utf8CP, if_neg (by omega), if_neg (by omega), if_neg (by omega), if_pos (by omega)]
  simp only [List.get?_cons_zero, List.get?_cons_succ, Option.some_bind]
  rw [contTok_ok _ (by omega) (by omega), contTok_ok _ (by omega) (by omega)]
  simp only [Option.some_bind]
  rw [if_neg (by omega)]
  simp only [Option.some.injEq]
  omega

theorem utf8CP_four (c : Nat) (tail : List (Sum Nat Nat)) (h3 : ¬c < 65536)
    (hlt : c < 1114112) :
    utf8CP (240 + c / 262144)
      (Sum.inr (128 + c / 4096 % 64) :: Sum.inr (128 + c / 64 % 64) ::
        Sum.inr (128 + c % 64) :: tail) = some c := by
  rw [utf8CP, if_neg (by omega), if_neg (by omega), if_neg (by omega), if_neg (by omega),
      if_pos (by omega)]
  simp only [List.get?_cons_zero, List.get?_cons_succ, Option.some_bind]
  rw [contTok_ok _ (by omega) (by omega), contTok_ok _ (by omega) (by omega),
      contTok_ok _ (by omega) (by omega)]
  simp only [Option.some_bind]
  rw [if_neg (by omega)]
  simp only [Option.some.injEq]
  omega

theorem decodeTokens_utf8 (m : List Nat) (h : ∀ c ∈ m, ValidScalar c) :
    decodeTokens ((utf8Encode m).map
      (fun b => if escapeSafe b = true then Sum.inl b else Sum.inr b)) = some m := by
  induction m with
  | nil => exact decodeTokens_nil
  | cons c m2 ih =>
    obtain ⟨hlt, hsur⟩ := h c (by simp)
    have ih2 := ih (fun x hx => h x (by simp [hx]))
    have hsplit : utf8Encode (c :: m2) = utf8EncodeChar c ++ utf8Encode m2 := by
      simp [utf8Encode]
    rw [hsplit, List.map_append]
    by_cases h1 : c < 128
    · rw [show utf8EncodeChar c = [c] from by rw [utf8EncodeChar, if_pos h1]]
      simp only [List.map_cons, List.map_nil, List.cons_append, List.nil_append]
      by_cases hs : escapeSafe c = true
      · rw [if_pos hs, decodeTokens_inl, ih2]
        rfl
      · rw [if_neg hs]
        rw [decodeTokens_inr_some c _ c (by rw [utf8CP, if_pos h1])]
        rw [show utf8Len c = 0 from by rw [utf8Len, if_pos h1], List.drop_zero, ih2]
        rfl
    · by_cases h2 : c < 2048
      · rw [show utf8EncodeChar c = [192 + c / 64, 128 + c % 64] from by
            rw [utf8EncodeChar, if_neg h1, if_pos h2]]
        simp only [List.map_cons, List.map_nil, List.cons_append, List.nil_append]
        rw [escTok_hi _ (by omega), escTok_hi _ (by omega)]
        rw [decodeTokens_inr_some _ _ _ (utf8CP_two c _ h1 h2)]
        rw [show utf8Len (192 + c / 64) = 1 from by
            rw [utf8Len, if_neg (by omega), if_pos (by omega)]]
        simp only [List.drop_succ_cons, List.drop_zero]
        rw [ih2]
        rfl
      · by_cases h3 : c < 65536
        · rw [show utf8EncodeChar c = [224 + c / 4096, 128 + c / 64 % 64, 128 + c % 64] from by
              rw [utf8EncodeChar, if_neg h1, if_neg h2, if_pos h3]]
          simp only [List.map_cons, List.map_nil, List.cons_append, List.nil_append]
          rw [escTok_hi _ (by omega), escTok_hi _ (by omega), escTok_hi _ (by omega)]
          rw [decodeTokens_inr_some _ _ _ (utf8CP_three c _ h2 h3 hsur)]
          rw [show utf8Len (224 + c / 4096) = 2 from by
              rw [utf8Len, if_neg (by omega), if_neg (by omega), if_pos (by omega)]]
          simp only [List.drop_succ_cons, List.drop_zero]
          rw [ih2]
          rfl
        · rw [show utf8EncodeChar c =
              [240 + c / 262144, 128 + c / 4096 % 64, 128 + c / 64 % 64, 128 + c % 64] from by
              rw [utf8EncodeChar, if_neg h1, if_neg h2, if_neg h3]]
          simp only [List.map_cons, List.map_nil, List.cons_append, List.nil_append]
          rw [escTok_hi _ (by omega), escTok_hi _ (by omega), escTok_hi _ (by omega),
              escTok_hi _ (by omega)]
          rw [decodeTokens_inr_some _ _ _ (utf8CP_four c _ h3 hlt)]
          rw [show utf8Len (240 + c / 262144) = 3 from by
              rw [utf8Len, if_neg (by omega), if_neg (by omega), if_neg (by omega)]]
          simp only [List.drop_succ_cons, List.drop_zero]
          rw [ih2]
          rfl

theorem decodeURIComponent_escape_utf8 (m : List Nat) (h : ∀ c ∈ m, ValidScalar c) :
    decodeURIComponentL (escapeL (utf8Encode m)) = some m := by
  rw [decodeURIComponentL]
  rw [uriTokens_escape _ (utf8Encode_lt_256 m (fun c hc => (h c hc).1))]
  simp only [Option.some_bind]
  exact decodeTokens_utf8 m h

/-- C4: for every well-formed text (a sequence of Unicode scalar values — a
lone surrogate would make `encodeURIComponent` throw), the payload built by
`sendText`, `btoa(unescape(encodeURIComponent(text)))`, decodes back to the
identical text through `_onTextReceived`,
`decodeURIComponent(escape(atob(payload)))`. -/
theorem c4_text_round_trip (m : List Nat) (h : ∀ c ∈ m, ValidScalar c) :
    ∃ p, sendTextPayload m = some p ∧ receiveTextPayload p = some m := by
  have h21 : ∀ c ∈ m, c < 1114112 := fun c hc => (h c hc).1
  obtain ⟨s, hbt, hat⟩ := atob_btoa (utf8Encode m) (utf8Encode_lt_256 m h21)
  refine ⟨s, ?_, ?_⟩
  · rw [sendTextPayload, unescape_encodeURIComponent m h21, hbt]
  · rw [receiveTextPayload, hat]
    simp only [Option.some_bind]
    exact decodeURIComponent_escape_utf8 m h

theorem c4_text_round_trip_witness :
    (∀ c ∈ [104, 233, 127757], ValidScalar c) ∧
    ∃ p, sendTextPayload [104, 233, 127757] = some p ∧
      receiveTextPayload p = some [104, 233, 127757] :=
  ⟨by decide, c4_text_round_trip [104, 233, 127757] (by decide)⟩
